import Mathlib

/-!
Verification development for the invoice-extractor pipeline
(`app/services/gemini_service.py`, `app/models/schemas.py`).

Strings are modelled as `List Char`; Python floats are modelled as exact
rationals (`ℚ`), so tolerance comparisons such as `abs(x - y) > 0.01` are
exact; Python exceptions are modelled by `Except PyExc`.  The nonstandard
`NaN`/`Infinity` extensions of Python's `json` module are outside the model.
-/

set_option maxRecDepth 40000

/-- Whitespace set of Python `str.strip` (ASCII part; the unicode extras are
irrelevant to the texts handled here). -/
def pyWs (c : Char) : Bool :=
  c == ' ' || c == '\t' || c == '\n' || c == '\r' || c == '\x0b' || c == '\x0c'

/-- Python `str.strip()`: drop leading and trailing whitespace. -/
def trimL (l : List Char) : List Char :=
  ((l.dropWhile pyWs).reverse.dropWhile pyWs).reverse

/-- Worker for `splitOnL`.  The first argument is the number of characters of a
just-matched separator still to be skipped. -/
def splitAux (sep : List Char) : ℕ → List Char → List (List Char)
  | _, [] => [[]]
  | k + 1, _ :: rest => splitAux sep k rest
  | 0, c :: rest =>
    if sep ≠ [] ∧ sep.isPrefixOf (c :: rest) then
      [] :: splitAux sep (sep.length - 1) rest
    else
      match splitAux sep 0 rest with
      | [] => [[c]]
      | h :: t => (c :: h) :: t

/-- Python `s.split(sep)` for a non-empty separator: split at every
non-overlapping leftmost occurrence of `sep`. -/
def splitOnL (sep s : List Char) : List (List Char) :=
  splitAux sep 0 s

/-- Python `sep in s` (substring containment). -/
def containsSub (sep : List Char) : List Char → Bool
  | [] => sep.isPrefixOf []
  | c :: rest => sep.isPrefixOf (c :: rest) || containsSub sep rest

/-- JSON values as produced by `json.loads` (numbers collapsed to `ℚ`). -/
inductive JVal where
  | jnull : JVal
  | jbool (b : Bool) : JVal
  | jnum (q : ℚ) : JVal
  | jstr (s : List Char) : JVal
  | jarr (elems : List JVal) : JVal
  | jobj (fields : List (List Char × JVal)) : JVal

/-- Lookup in a parsed JSON object.  `json.loads` builds a `dict`, where a
duplicated key keeps the last occurrence, hence the reversed scan. -/
def dictGet (fields : List (List Char × JVal)) (k : List Char) : Option JVal :=
  (fields.reverse.find? (fun p => p.1 == k)).map (·.2)

/-- Python `d.get(k, default)`. -/
def dictGetD (fields : List (List Char × JVal)) (k : List Char) (dflt : JVal) : JVal :=
  (dictGet fields k).getD dflt

/-- Whitespace accepted between JSON tokens. -/
def isJsonWs (c : Char) : Bool :=
  c == ' ' || c == '\t' || c == '\n' || c == '\r'

/-- Value of a hex digit, if any. -/
def hexDigitVal (c : Char) : Option ℕ :=
  if '0' ≤ c ∧ c ≤ '9' then some (c.toNat - 48)
  else if 'a' ≤ c ∧ c ≤ 'f' then some (c.toNat - 87)
  else if 'A' ≤ c ∧ c ≤ 'F' then some (c.toNat - 55)
  else none

/-- Parse the remainder of a JSON string literal (the opening quote already
consumed); returns the decoded characters and the unconsumed input. -/
def parseStringRest : List Char → Option (List Char × List Char)
  | [] => none
  | c :: rest =>
    if c = '"' then some ([], rest)
    else if c = '\\' then
      match rest with
      | [] => none
      | e :: rest2 =>
        if e = 'u' then
          match rest2 with
          | h1 :: h2 :: h3 :: h4 :: rest3 =>
            match hexDigitVal h1, hexDigitVal h2, hexDigitVal h3, hexDigitVal h4 with
            | some a, some b, some c2, some d =>
              match parseStringRest rest3 with
              | some (s, r) => some (Char.ofNat (((a * 16 + b) * 16 + c2) * 16 + d) :: s, r)
              | none => none
            | _, _, _, _ => none
          | _ => none
        else
          match
            (if e = '"' then some '"'
             else if e = '\\' then some '\\'
             else if e = '/' then some '/'
             else if e = 'b' then some (Char.ofNat 8)
             else if e = 'f' then some (Char.ofNat 12)
             else if e = 'n' then some '\n'
             else if e = 'r' then some '\r'
             else if e = 't' then some '\t'
             else none : Option Char)
          with
          | some ch =>
            match parseStringRest rest2 with
            | some (s, r) => some (ch :: s, r)
            | none => none
          | none => none
    else if c.toNat < 32 then none
    else
      match parseStringRest rest with
      | some (s, r) => some (c :: s, r)
      | none => none

/-- Numeric value of a digit string. -/
def digitsVal (l : List Char) : ℕ :=
  l.foldl (fun n c => n * 10 + (c.toNat - 48)) 0

/-- Assemble a JSON number from sign, integer digits, fraction digits and
exponent. -/
def mkNum (neg : Bool) (ipart fd : List Char) (eneg : Bool) (ed : List Char) : JVal :=
  let mantissa : ℚ := (digitsVal ipart : ℚ) + (digitsVal fd : ℚ) / ((10 : ℚ) ^ fd.length)
  let e : ℤ := if eneg then -(digitsVal ed : ℤ) else (digitsVal ed : ℤ)
  let q := mantissa * (10 : ℚ) ^ e
  JVal.jnum (if neg then -q else q)

/-- Parse an optional exponent part and finish the number. -/
def parseExpPart (neg : Bool) (ipart fd : List Char) : List Char → Option (JVal × List Char)
  | [] => some (mkNum neg ipart fd false [], [])
  | c :: r =>
    if c = 'e' ∨ c = 'E' then
      let p : Bool × List Char :=
        match r with
        | c2 :: r2 => if c2 = '-' then (true, r2) else if c2 = '+' then (false, r2) else (false, r)
        | [] => (false, r)
      let ed := p.2.takeWhile Char.isDigit
      if ed = [] then none
      else some (mkNum neg ipart fd p.1 ed, p.2.dropWhile Char.isDigit)
    else some (mkNum neg ipart fd false [], c :: r)

/-- Parse a JSON number token at the head of the input (grammar of RFC 8259:
no leading zeros, fraction and exponent need digits). -/
def parseNum (s : List Char) : Option (JVal × List Char) :=
  let p : Bool × List Char :=
    match s with
    | c :: r => if c = '-' then (true, r) else (false, s)
    | [] => (false, s)
  match p.2 with
  | [] => none
  | c :: r =>
    if c.isDigit then
      let ip : List Char × List Char :=
        if c = '0' then ([c], r)
        else ((c :: r).takeWhile Char.isDigit, (c :: r).dropWhile Char.isDigit)
      match ip.2 with
      | '.' :: r2 =>
        let fd := r2.takeWhile Char.isDigit
        if fd = [] then none
        else parseExpPart p.1 ip.1 fd (r2.dropWhile Char.isDigit)
      | _ => parseExpPart p.1 ip.1 [] ip.2
    else none

mutual

/-- Parse one JSON value; the fuel bounds nesting/step depth. -/
def parseVal : ℕ → List Char → Option (JVal × List Char)
  | 0, _ => none
  | f + 1, s =>
    match s.dropWhile isJsonWs with
    | [] => none
    | c :: rest =>
      if c = '\x7b' then parseObjFirst f rest
      else if c = '[' then parseArrFirst f rest
      else if c = '"' then
        match parseStringRest rest with
        | some (str, r) => some (JVal.jstr str, r)
        | none => none
      else if c = 't' then
        match rest with
        | 'r' :: 'u' :: 'e' :: r => some (JVal.jbool true, r)
        | _ => none
      else if c = 'f' then
        match rest with
        | 'a' :: 'l' :: 's' :: 'e' :: r => some (JVal.jbool false, r)
        | _ => none
      else if c = 'n' then
        match rest with
        | 'u' :: 'l' :: 'l' :: r => some (JVal.jnull, r)
        | _ => none
      else parseNum (c :: rest)

/-- After an opening brace: empty object or first member. -/
def parseObjFirst : ℕ → List Char → Option (JVal × List Char)
  | 0, _ => none
  | f + 1, s =>
    match s.dropWhile isJsonWs with
    | '\x7d' :: r => some (JVal.jobj [], r)
    | _ => parseMembers f s []

/-- Parse `"key": value` members separated by commas, until a closing brace. -/
def parseMembers : ℕ → List Char → List (List Char × JVal) → Option (JVal × List Char)
  | 0, _, _ => none
  | f + 1, s, acc =>
    match s.dropWhile isJsonWs with
    | '"' :: rest =>
      match parseStringRest rest with
      | some (key, r1) =>
        match r1.dropWhile isJsonWs with
        | ':' :: r2 =>
          match parseVal f r2 with
          | some (v, r3) =>
            match r3.dropWhile isJsonWs with
            | ',' :: r4 => parseMembers f r4 (acc ++ [(key, v)])
            | '\x7d' :: r4 => some (JVal.jobj (acc ++ [(key, v)]), r4)
            | _ => none
          | none => none
        | _ => none
      | none => none
    | _ => none

/-- After an opening bracket: empty array or first element. -/
def parseArrFirst : ℕ → List Char → Option (JVal × List Char)
  | 0, _ => none
  | f + 1, s =>
    match s.dropWhile isJsonWs with
    | ']' :: r => some (JVal.jarr [], r)
    | _ => parseElems f s []

/-- Parse array elements separated by commas, until a closing bracket. -/
def parseElems : ℕ → List Char → List JVal → Option (JVal × List Char)
  | 0, _, _ => none
  | f + 1, s, acc =>
    match parseVal f s with
    | some (v, r) =>
      match r.dropWhile isJsonWs with
      | ',' :: r2 => parseElems f r2 (acc ++ [v])
      | ']' :: r2 => some (JVal.jarr (acc ++ [v]), r2)
      | _ => none
    | none => none

end

/-- Model of `json.loads`: parse one JSON document, requiring the whole input
to be consumed (up to trailing whitespace); `none` models `JSONDecodeError`. -/
def jsonParse (s : List Char) : Option JVal :=
  match parseVal (s.length + 1) s with
  | some (v, rest) => if rest.dropWhile isJsonWs = [] then some v else none
  | none => none

/-- Python exceptions, by kind, as raised in `gemini_service.py`.  Message
texts are light paraphrases of CPython's (avoiding quote characters); the
constructor is the exception class. -/
inductive PyExc where
  | valueErr (msg : String) : PyExc
  | typeErr (msg : String) : PyExc
  | attrErr (msg : String) : PyExc
  | exc (msg : String) : PyExc
deriving DecidableEq

/-- Python `str(e)` for the exceptions above. -/
def pyStrExc : PyExc → String
  | .valueErr m => m
  | .typeErr m => m
  | .attrErr m => m
  | .exc m => m

/-- The exception class name, `type(e).__name__`. -/
def excKind : PyExc → String
  | .valueErr _ => "ValueError"
  | .typeErr _ => "TypeError"
  | .attrErr _ => "AttributeError"
  | .exc _ => "Exception"

/-- Finish Python `float(string)` after the mantissa: optional exponent, then
the input must be exhausted. -/
def pyFloatExpPart (mant : ℚ) : List Char → Option ℚ
  | [] => some mant
  | c :: r =>
    if c = 'e' ∨ c = 'E' then
      let p : Bool × List Char :=
        match r with
        | c2 :: r2 => if c2 = '-' then (true, r2) else if c2 = '+' then (false, r2) else (false, r)
        | [] => (false, r)
      let ed := p.2.takeWhile Char.isDigit
      if ed = [] ∨ p.2.dropWhile Char.isDigit ≠ [] then none
      else some (mant * (10 : ℚ) ^ (if p.1 then -(digitsVal ed : ℤ) else (digitsVal ed : ℤ)))
    else none

/-- Python `float(string)`: strip whitespace, optional sign, decimal literal
with optional fraction and exponent.  (The `inf`/`nan` spellings are outside
the model.) -/
def pyFloatChars (s : List Char) : Option ℚ :=
  let t := trimL s
  let p : Bool × List Char :=
    match t with
    | c :: r => if c = '-' then (true, r) else if c = '+' then (false, r) else (false, t)
    | [] => (false, t)
  let ip := p.2.takeWhile Char.isDigit
  let rest1 := p.2.dropWhile Char.isDigit
  let signed : ℚ → ℚ := fun q => if p.1 then -q else q
  match rest1 with
  | '.' :: r2 =>
    let fd := r2.takeWhile Char.isDigit
    if ip = [] ∧ fd = [] then none
    else
      (pyFloatExpPart ((digitsVal ip : ℚ) + (digitsVal fd : ℚ) / ((10 : ℚ) ^ fd.length))
        (r2.dropWhile Char.isDigit)).map signed
  | _ =>
    if ip = [] then none
    else (pyFloatExpPart (digitsVal ip : ℚ) rest1).map signed

/-- Python `float(x)` on a decoded JSON value. -/
def pyFloat (v : JVal) : Except PyExc ℚ :=
  match v with
  | .jnum q => .ok q
  | .jbool b => .ok (if b then 1 else 0)
  | .jstr s =>
    match pyFloatChars s with
    | some q => .ok q
    | none => .error (.valueErr ("could not convert string to float: " ++ String.mk s))
  | .jnull => .error (.typeErr "float argument must be a string or a real number, not NoneType")
  | .jarr _ => .error (.typeErr "float argument must be a string or a real number, not list")
  | .jobj _ => .error (.typeErr "float argument must be a string or a real number, not dict")

/-- Calling `.get` on a decoded value: only dicts have it
(`AttributeError` otherwise). -/
def asDict (v : JVal) : Except PyExc (List (List Char × JVal)) :=
  match v with
  | .jobj fs => .ok fs
  | _ => .error (.attrErr "object has no attribute get")

/-- Python iteration over a decoded value: lists yield elements, strings yield
one-character strings, dicts yield their keys; numbers, booleans and `None`
are not iterable. -/
def pyIter (v : JVal) : Except PyExc (List JVal) :=
  match v with
  | .jarr xs => .ok xs
  | .jstr cs => .ok (cs.map (fun c => JVal.jstr [c]))
  | .jobj fs => .ok (fs.map (fun p => JVal.jstr p.1))
  | _ => .error (.typeErr "object is not iterable")

/-- Sequential traversal stopping at the first error, like a Python loop. -/
def mapExc {ε α β : Type} (f : α → Except ε β) : List α → Except ε (List β)
  | [] => .ok []
  | x :: xs =>
    match f x with
    | .error e => .error e
    | .ok y =>
      match mapExc f xs with
      | .error e => .error e
      | .ok ys => .ok (y :: ys)

/-- The triple-backtick fence delimiter. -/
def bt3L : List Char := "```".toList

/-- The json-annotated fence opener searched for first. -/
def fjsonL : List Char := "```json".toList

/-- Lines 130-134 of `gemini_service.py`: strip a Markdown code fence.
`if "```json" in t: t = t.split("```json")[1].split("```")[0].strip()`
`elif "```" in t: t = t.split("```")[1].strip()`. -/
def cleanExtractedText (t : List Char) : List Char :=
  if containsSub fjsonL t then
    trimL ((splitOnL bt3L ((splitOnL fjsonL t).getD 1 [])).getD 0 [])
  else if containsSub bt3L t then
    trimL ((splitOnL bt3L t).getD 1 [])
  else t

/-- Lines 165-172: normalize one line item; every numeric field is coerced
with `float(item.get(k, 0))`, the description is taken verbatim.  No
amount/quantity/price reconciliation happens here. -/
def processItem (item : JVal) : Except PyExc JVal :=
  match asDict item with
  | .error e => .error e
  | .ok f =>
    match pyFloat (dictGetD f ("quantity".toList) (JVal.jnum 0)) with
    | .error e => .error e
    | .ok quantity =>
      match pyFloat (dictGetD f ("unit_price".toList) (JVal.jnum 0)) with
      | .error e => .error e
      | .ok unit_price =>
        match pyFloat (dictGetD f ("tax_rate".toList) (JVal.jnum 0)) with
        | .error e => .error e
        | .ok tax_rate =>
          match pyFloat (dictGetD f ("tax_amount".toList) (JVal.jnum 0)) with
          | .error e => .error e
          | .ok tax_amount =>
            match pyFloat (dictGetD f ("amount".toList) (JVal.jnum 0)) with
            | .error e => .error e
            | .ok amount =>
              .ok (JVal.jobj
                [("description".toList, dictGetD f ("description".toList) (JVal.jstr [])),
                 ("quantity".toList, JVal.jnum quantity),
                 ("unit_price".toList, JVal.jnum unit_price),
                 ("tax_rate".toList, JVal.jnum tax_rate),
                 ("tax_amount".toList, JVal.jnum tax_amount),
                 ("amount".toList, JVal.jnum amount)])

/-- Lines 138-177: build `processed_data` from the decoded reply.  Evaluation
order follows the Python source: the `tax_details` sub-dict and its seven
float coercions first, then `subtotal`, then `total`, then the items loop;
the first failing coercion raises.  `confidence_score` is set to the constant
`95.0` at the end; `currency` defaults to `"INR"`; the declared `total` is
taken as-is (no reconciliation against the item amounts). -/
def processParsedData (data : JVal) : Except PyExc JVal :=
  match asDict data with
  | .error e => .error e
  | .ok fields =>
    match asDict (dictGetD fields ("tax_details".toList) (JVal.jobj [])) with
    | .error e => .error e
    | .ok taxFields =>
      match pyFloat (dictGetD taxFields ("cgst_rate".toList) (JVal.jnum 0)) with
      | .error e => .error e
      | .ok cgst_rate =>
        match pyFloat (dictGetD taxFields ("cgst_amount".toList) (JVal.jnum 0)) with
        | .error e => .error e
        | .ok cgst_amount =>
          match pyFloat (dictGetD taxFields ("sgst_rate".toList) (JVal.jnum 0)) with
          | .error e => .error e
          | .ok sgst_rate =>
            match pyFloat (dictGetD taxFields ("sgst_amount".toList) (JVal.jnum 0)) with
            | .error e => .error e
            | .ok sgst_amount =>
              match pyFloat (dictGetD taxFields ("igst_rate".toList) (JVal.jnum 0)) with
              | .error e => .error e
              | .ok igst_rate =>
                match pyFloat (dictGetD taxFields ("igst_amount".toList) (JVal.jnum 0)) with
                | .error e => .error e
                | .ok igst_amount =>
                  match pyFloat (dictGetD taxFields ("total_tax".toList) (JVal.jnum 0)) with
                  | .error e => .error e
                  | .ok total_tax =>
                    match pyFloat (dictGetD fields ("subtotal".toList) (JVal.jnum 0)) with
                    | .error e => .error e
                    | .ok subtotal =>
                      match pyFloat (dictGetD fields ("total".toList) (JVal.jnum 0)) with
                      | .error e => .error e
                      | .ok total =>
                        match pyIter (dictGetD fields ("items".toList) (JVal.jarr [])) with
                        | .error e => .error e
                        | .ok rawItems =>
                          match mapExc processItem rawItems with
                          | .error e => .error e
                          | .ok items =>
                            .ok (JVal.jobj
                              [("vendor".toList, dictGetD fields ("vendor".toList) (JVal.jstr [])),
                               ("invoice_number".toList,
                                 dictGetD fields ("invoice_number".toList) (JVal.jstr [])),
                               ("date".toList, dictGetD fields ("date".toList) (JVal.jstr [])),
                               ("subtotal".toList, JVal.jnum subtotal),
                               ("tax_details".toList, JVal.jobj
                                 [("gstin".toList, dictGetD taxFields ("gstin".toList) (JVal.jstr [])),
                                  ("cgst_rate".toList, JVal.jnum cgst_rate),
                                  ("cgst_amount".toList, JVal.jnum cgst_amount),
                                  ("sgst_rate".toList, JVal.jnum sgst_rate),
                                  ("sgst_amount".toList, JVal.jnum sgst_amount),
                                  ("igst_rate".toList, JVal.jnum igst_rate),
                                  ("igst_amount".toList, JVal.jnum igst_amount),
                                  ("total_tax".toList, JVal.jnum total_tax)]),
                               ("total".toList, JVal.jnum total),
                               ("currency".toList,
                                 dictGetD fields ("currency".toList) (JVal.jstr ("INR".toList))),
                               ("items".toList, JVal.jarr items),
                               ("confidence_score".toList, JVal.jnum 95)])

/-- Lines 182-190: the record returned when `json.loads` fails.  Note it has
no `subtotal` and no `tax_details` key, its currency is `"USD"` and its
confidence is `0.0`. -/
def fallbackData : JVal :=
  JVal.jobj
    [("vendor".toList, JVal.jstr []),
     ("invoice_number".toList, JVal.jstr []),
     ("date".toList, JVal.jstr []),
     ("total".toList, JVal.jnum 0),
     ("currency".toList, JVal.jstr ("USD".toList)),
     ("items".toList, JVal.jarr []),
     ("confidence_score".toList, JVal.jnum 0)]

/-- Lines 130-190: fence cleanup, strict JSON parse, normalization; only a
`json.JSONDecodeError` is downgraded to the fallback record (coercion and
attribute errors keep propagating).  Both success paths return the cleaned
text alongside the record, as the Python function returns
`(extracted_text, processed_data)`. -/
def recoverStage (t : List Char) : Except PyExc (List Char × JVal) :=
  let t2 := cleanExtractedText t
  match jsonParse t2 with
  | some d =>
    match processParsedData d with
    | .ok r => .ok (t2, r)
    | .error e => .error e
  | none => .ok (t2, fallbackData)

/-- Lines 114-194 given a model response carrying text `raw`: strip it, raise
through the nested handlers when it is empty, otherwise run the recovery and
normalization stage; any exception is re-raised by the outermost handler as a
generic `Exception("Failed to process invoice: ...")`. -/
def processResponseText (raw : List Char) : Except PyExc (List Char × JVal) :=
  let t := trimL raw
  if t = [] then
    .error (.exc "Failed to process invoice: Gemini API Error: Empty text in response")
  else
    match recoverStage t with
    | .ok r => .ok r
    | .error e => .error (.exc ("Failed to process invoice: " ++ pyStrExc e))

/-- Kernel-computable floor on the rationals (`⌊q⌋ = q.num / q.den` with
euclidean integer division); agrees with `Int.floor` by `Rat.floor_def`. -/
def ratFloor (q : ℚ) : ℤ := q.num / q.den

/-- `ratFloor` is the floor. -/
theorem ratFloor_eq (q : ℚ) : ratFloor q = ⌊q⌋ := Rat.floor_def.symm

/-- A decoded PIL image, by the attributes the service reads. -/
structure PILImage where
  width : ℕ
  height : ℕ
  mode : String
deriving DecidableEq

/-- Lines 42-51: convert to RGB when needed; when either dimension exceeds
1600, downscale by `ratio = min(1600/w, 1600/h)` with the new size
`(int(w*ratio), int(h*ratio))`.  `int()` truncates toward zero and both
products are nonnegative, hence the floors. -/
def normalizeLoadedImage (img : PILImage) : PILImage :=
  let img1 := if img.mode ≠ "RGB" then { img with mode := "RGB" } else img
  if 1600 < img1.width ∨ 1600 < img1.height then
    let ratio : ℚ := min ((1600 : ℚ) / (img1.width : ℚ)) ((1600 : ℚ) / (img1.height : ℚ))
    { img1 with
      width := (ratFloor ((img1.width : ℚ) * ratio)).toNat,
      height := (ratFloor ((img1.height : ℚ) * ratio)).toNat }
  else img1

/-- Lines 35-40 plus `_process_pdf` (lines 23-30): images are opened with PIL
(outcome supplied as `imgOpen`), PDFs are rendered with `convert_from_bytes`
(outcome supplied as `pdfConvert`); `_process_pdf` returns
`images[0] if images else None` and converts any rendering exception into
`ValueError("Failed to process PDF file")`; other MIME types raise
`ValueError("Unsupported file type")`. -/
def acquireImage (mime : String) (imgOpen : Except PyExc PILImage)
    (pdfConvert : Except PyExc (List PILImage)) : Except PyExc (Option PILImage) :=
  if mime.startsWith "image/" then
    match imgOpen with
    | .ok img => .ok (some img)
    | .error e => .error e
  else if mime = "application/pdf" then
    match pdfConvert with
    | .ok pages => .ok pages.head?
    | .error _ => .error (.valueErr "Failed to process PDF file")
  else .error (.valueErr "Unsupported file type")

/-- Lines 33-51: acquire the image and normalize it.  When `_process_pdf`
returned `None` (zero rendered pages), the first attribute access
`image.mode` raises `AttributeError`. -/
def prepareImage (mime : String) (imgOpen : Except PyExc PILImage)
    (pdfConvert : Except PyExc (List PILImage)) : Except PyExc PILImage :=
  match acquireImage mime imgOpen pdfConvert with
  | .error e => .error e
  | .ok none => .error (.attrErr "NoneType object has no attribute mode")
  | .ok (some img) => .ok (normalizeLoadedImage img)

/-- The front half of `process_invoice` under the outermost handler of lines
192-194, which re-raises every exception as a generic
`Exception("Failed to process invoice: ...")`. -/
def processFront (mime : String) (imgOpen : Except PyExc PILImage)
    (pdfConvert : Except PyExc (List PILImage)) : Except PyExc PILImage :=
  match prepareImage mime imgOpen pdfConvert with
  | .ok img => .ok img
  | .error e => .error (.exc ("Failed to process invoice: " ++ pyStrExc e))

/-- Lines 57-94: the instruction prompt.  It is a fixed literal; it mentions
no document-type hint and is built without looking at the uploaded bytes. -/
def invoicePrompt : String :=
  String.intercalate "\n"
    ["Analyze this invoice image and extract information in this exact JSON format. Be precise and accurate:",
     "            \x7b",
     "                \"vendor\": \"company name\",",
     "                \"invoice_number\": \"reference number\",",
     "                \"date\": \"YYYY-MM-DD\",",
     "                \"subtotal\": numeric_value,",
     "                \"tax_details\": \x7b",
     "                    \"gstin\": \"tax registration number\",",
     "                    \"cgst_rate\": percentage,",
     "                    \"cgst_amount\": numeric_value,",
     "                    \"sgst_rate\": percentage,",
     "                    \"sgst_amount\": numeric_value,",
     "                    \"igst_rate\": percentage,",
     "                    \"igst_amount\": numeric_value,",
     "                    \"total_tax\": numeric_value",
     "                \x7d,",
     "                \"total\": numeric_value,",
     "                \"currency\": \"USD/EUR/etc\",",
     "                \"items\": [",
     "                    \x7b",
     "                        \"description\": \"exact item description\",",
     "                        \"quantity\": numeric_value,",
     "                        \"unit_price\": numeric_value,",
     "                        \"tax_rate\": percentage,",
     "                        \"tax_amount\": numeric_value,",
     "                        \"amount\": numeric_value",
     "                    \x7d",
     "                ]",
     "            \x7d",
     "",
     "            IMPORTANT RULES:",
     "            1. Extract ALL line items with exact descriptions",
     "            2. Keep amounts as numeric values only (no currency symbols)",
     "            3. Return valid JSON only, no additional text",
     "            4. For Indian invoices, extract GST details (CGST, SGST, IGST)",
     "            5. Calculate tax amounts if not explicitly shown",
     "            6. If tax details are not found, set rates to 0 and amounts to 0",
     "            7. Calculate total_tax as sum of all tax amounts"]

/-- The prompt actually sent for a given upload: `process_invoice` assigns the
constant literal above whatever the file content is (lines 56-94 contain no
use of `file_content`). -/
def promptFor (_fileContent : List Char) : String := invoicePrompt

/-- Python `round(x)` on an exact value: round half to even. -/
def roundHalfEven (q : ℚ) : ℤ :=
  if q - ratFloor q < 1 / 2 then ratFloor q
  else if q - ratFloor q > 1 / 2 then ratFloor q + 1
  else if ratFloor q % 2 = 0 then ratFloor q else ratFloor q + 1

/-- Python `round(x, 2)`. -/
def round2 (q : ℚ) : ℚ :=
  ((roundHalfEven (q * 100) : ℤ) : ℚ) / 100

/-- Worker for Python `str.split()` with no separator: whitespace runs
delimit words, empty words are dropped. -/
def wordsAux : List Char → List Char → List (List Char)
  | [], acc => if acc = [] then [] else [acc.reverse]
  | c :: rest, acc =>
    if pyWs c then
      if acc = [] then wordsAux rest [] else acc.reverse :: wordsAux rest []
    else wordsAux rest (c :: acc)

/-- `LineItem.clean_description` of `schemas.py` (lines 36-44):
`' '.join(v.split())` then `v.replace('\\n', '\n')`; an empty description is
returned untouched. -/
def cleanDescription (v : List Char) : List Char :=
  if v = [] then v
  else
    List.intercalate ("\n".toList)
      (splitOnL ("\\n".toList) (List.intercalate (" ".toList) (wordsAux v [])))

/-- A validated `schemas.LineItem`. -/
structure LineItemM where
  description : List Char
  quantity : ℚ
  unit_price : ℚ
  amount : ℚ
deriving DecidableEq

/-- Validation of `schemas.LineItem`: pydantic validates fields in declaration
order (description, quantity, unit_price, amount), the `ge=0` constraints run
before the custom validators, and when `validate_amount` fires, `values`
already holds `quantity` and `unit_price`, so the reconciliation of lines
27-34 is live: `expected = round(quantity * unit_price, 2)`, and the amount
is replaced by `expected` whenever `abs(v - expected) > 0.01`. -/
def validateLineItem (description : List Char) (quantity unit_price amount : ℚ) :
    Except String LineItemM :=
  if quantity < 0 then .error "quantity: ensure this value is greater than or equal to 0"
  else if unit_price < 0 then .error "unit_price: ensure this value is greater than or equal to 0"
  else if amount < 0 then .error "amount: ensure this value is greater than or equal to 0"
  else
    let expected := round2 (quantity * unit_price)
    .ok
      { description := cleanDescription description,
        quantity := quantity,
        unit_price := unit_price,
        amount := if |amount - expected| > 1 / 100 then expected else amount }

/-- The body of `InvoiceData.validate_total` (schemas.py lines 64-71), as a
function of the declared total and of the `items` entry of pydantic's
`values` dict (absent entry modelled by `none`):
`if 'items' in values and values['items']: expected = round(sum(...), 2);`
`if abs(v - expected) > 0.01: v = expected`. -/
def validate_total (v : ℚ) (values_items : Option (List LineItemM)) : ℚ :=
  match values_items with
  | none => v
  | some items =>
    if items ≠ [] then
      let expected := round2 (items.map (·.amount)).sum
      if |v - expected| > 1 / 100 then expected else v
    else v

/-- A validated `schemas.InvoiceData`. -/
structure InvoiceDataM where
  vendor : List Char
  invoice_number : List Char
  date : List Char
  total : ℚ
  currency : List Char
  items : List LineItemM
deriving DecidableEq

/-- Validation of `schemas.InvoiceData`.  Pydantic validates fields in
declaration order: vendor, invoice_number, date, total, currency, items.
When `validate_total` runs, `values` holds only vendor, invoice_number and
date — the `items` field has not been validated yet — so the validator's
`'items' in values` test fails and the declared total is kept unchanged;
this is why the `items` argument passed to `validate_total` below is `none`. -/
def validateInvoiceData (vendor invoice_number date : List Char) (total : ℚ)
    (currency : List Char) (items : List (List Char × ℚ × ℚ × ℚ)) :
    Except String InvoiceDataM :=
  let t := validate_total total none
  match mapExc (fun x => validateLineItem x.1 x.2.1 x.2.2.1 x.2.2.2) items with
  | .error e => .error e
  | .ok itemsV =>
    .ok
      { vendor := vendor, invoice_number := invoice_number, date := date,
        total := t, currency := currency, items := itemsV }

/-- Modelled from the spec: the brace-matching JSON recovery step described in
section 4.4 and 9 of the spec ("search the text for the first
balanced-looking span via greedy brace matching", "first opening brace to
last closing brace").  This step does not exist in
`gemini_service.process_invoice`; the definition follows the spec's words and
is used to state the claim it comes from. -/
def specBraceSpan (t : List Char) : Option (List Char) :=
  let fromBrace := t.dropWhile (fun c => c ≠ '\x7b')
  let span := (fromBrace.reverse.dropWhile (fun c => c ≠ '\x7d')).reverse
  if span = [] then none else some span

/-- Modelled from the spec: the document-type heuristic described in section
4.2 of the spec (decode the first ~2KB of the raw input, search
case-insensitively for "credit note").  No such heuristic exists in
`gemini_service.py`; the definition follows the spec's words and is used to
state the claim it comes from. -/
def specDocTypeHint (rawText : List Char) : String :=
  if containsSub ("credit note".toList) ((rawText.take 2048).map Char.toLower) then
    "credit_note"
  else "invoice"

/-- Field of a processed record (a `JVal.jobj`). -/
def objField (v : JVal) (k : List Char) : Option JVal :=
  match v with
  | .jobj fs => dictGet fs k
  | _ => none

/-- Numeric field of a processed record. -/
def objNumField (v : JVal) (k : List Char) : Option ℚ :=
  match objField v k with
  | some (JVal.jnum q) => some q
  | _ => none

/-- Numeric field of a pipeline result. -/
def resNumField (res : Except PyExc (List Char × JVal)) (k : List Char) : Option ℚ :=
  match res with
  | .ok (_, v) => objNumField v k
  | .error _ => none

/-- String field of a pipeline result. -/
def resStrField (res : Except PyExc (List Char × JVal)) (k : List Char) : Option (List Char) :=
  match res with
  | .ok (_, v) =>
    match objField v k with
    | some (JVal.jstr s) => some s
    | _ => none
  | .error _ => none

/-- Whether a pipeline result is a normal return (no exception). -/
def resOkB (res : Except PyExc (List Char × JVal)) : Bool :=
  match res with
  | .ok _ => true
  | .error _ => false

/-- A prefix is an infix. -/
theorem prefix_toInfix {l s : List Char} (h : l <+: s) : l <:+: s := by
  obtain ⟨t, ht⟩ := h
  exact ⟨[], t, by simpa using ht⟩

/-- Splitting a prefix relation over an append. -/
theorem prefix_split {x y l : List Char} (h : l <+: x ++ y) :
    l <+: x ∨ (x <+: l ∧ l.drop x.length <+: y) := by
  induction x generalizing l with
  | nil => exact Or.inr ⟨ List.nil_prefix, by simpa using h⟩
  | cons c x' ih =>
    cases l with
    | nil => exact Or.inl List.nil_prefix
    | cons d l' =>
      rw [List.cons_append, List.cons_prefix_cons] at h
      obtain ⟨rfl, h'⟩ := h
      rcases ih h' with h1 | ⟨h2, h3⟩
      · exact Or.inl (List.cons_prefix_cons.mpr ⟨rfl, h1⟩)
      · exact Or.inr ⟨ List.cons_prefix_cons.mpr ⟨rfl, h2⟩, by simpa using h3⟩

/-- Splitting an infix relation over an append: the infix lies in the left
part, in the right part, or straddles the boundary. -/
theorem infix_append_split {sep a b : List Char} (h : sep <:+: a ++ b) :
    sep <:+: a ∨ sep <:+: b ∨
      ∃ s1 s2, s1 ≠ [] ∧ s2 ≠ [] ∧ sep = s1 ++ s2 ∧ s1 <:+ a ∧ s2 <+: b := by
  induction a with
  | nil => exact Or.inr (Or.inl (by simpa using h))
  | cons c a' ih =>
    rw [List.cons_append, List.infix_cons_iff] at h
    rcases h with h | h
    · cases sep with
      | nil => exact Or.inl ⟨[], c :: a', by simp⟩
      | cons d sep' =>
        rw [List.cons_prefix_cons] at h
        obtain ⟨hdc, h'⟩ := h
        rcases prefix_split h' with h1 | ⟨h2, h3⟩
        · exact Or.inl (prefix_toInfix (List.cons_prefix_cons.mpr ⟨hdc, h1⟩))
        · have htk : sep' = a' ++ sep'.drop a'.length := by
            conv_lhs => rw [← List.take_append_drop a'.length sep']
            rw [← List.prefix_iff_eq_take.mp h2]
          by_cases hs2 : sep'.drop a'.length = []
          · have hsep : sep' = a' := by rw [htk, hs2, List.append_nil]
            subst hsep
            subst hdc
            exact Or.inl ⟨[], [], by simp⟩
          · refine Or.inr (Or.inr ⟨d :: a', sep'.drop a'.length, by simp, hs2, ?_, ?_, h3⟩)
            · rw [List.cons_append, ← htk]
            · subst hdc
              exact List.suffix_refl _
    · rcases ih h with h1 | h1 | ⟨s1, s2, hn1, hn2, heq, hsf, hpf⟩
      · exact Or.inl (List.infix_cons h1)
      · exact Or.inr (Or.inl h1)
      · obtain ⟨r, hr⟩ := hsf
        exact Or.inr (Or.inr ⟨s1, s2, hn1, hn2, heq, ⟨c :: r, by simp [hr]⟩, hpf⟩)

/-- A nonempty prefix of a cons list contains the head. -/
theorem head_mem_of_pre {s : List Char} {c : Char} {t : List Char}
    (hne : s ≠ []) (h : s <+: c :: t) : c ∈ s := by
  cases s with
  | nil => exact absurd rfl hne
  | cons d s' =>
    rw [List.cons_prefix_cons] at h
    simp [h.1]

/-- A nonempty suffix of a list ending in `c` contains `c`. -/
theorem last_mem_of_suf {s x : List Char} {c : Char}
    (hne : s ≠ []) (h : s <:+ x ++ [c]) : c ∈ s := by
  have h' : s.reverse <+: c :: x.reverse := by
    obtain ⟨r, hr⟩ := h
    refine ⟨r.reverse, ?_⟩
    have := congrArg List.reverse hr
    simpa [List.reverse_append] using this
  have : c ∈ s.reverse := head_mem_of_pre (by simpa using hne) h'
  simpa using this

/-- Skipping exactly the separator's characters resumes a fresh scan. -/
theorem splitAux_skip (sep : List Char) : ∀ x b : List Char,
    splitAux sep x.length (x ++ b) = splitAux sep 0 b := by
  intro x
  induction x with
  | nil => intro b; rfl
  | cons c x' ih =>
    intro b
    show splitAux sep (x'.length + 1) (c :: (x' ++ b)) = splitAux sep 0 b
    rw [splitAux, ih]

/-- When the separator occurs nowhere, `split` returns the whole string. -/
theorem splitOnL_of_not_occurring {sep : List Char} :
    ∀ {s : List Char}, ¬ sep <:+: s → splitOnL sep s = [s] := by
  intro s
  induction s with
  | nil => intro _; rfl
  | cons c rest ih =>
    intro h
    have hnp : ¬ (sep ≠ [] ∧ sep.isPrefixOf (c :: rest) = true) := by
      rintro ⟨-, hp⟩
      exact h (prefix_toInfix (List.isPrefixOf_iff_prefix.mp hp))
    have hrest : ¬ sep <:+: rest := fun hr => h (List.infix_cons hr)
    show splitAux sep 0 (c :: rest) = [c :: rest]
    rw [splitAux, if_neg hnp]
    have : splitAux sep 0 rest = [rest] := ih hrest
    rw [this]

/-- Splitting a string that starts with the separator. -/
theorem splitOnL_sep_append {sep : List Char} (hsep : sep ≠ []) (b : List Char) :
    splitOnL sep (sep ++ b) = [] :: splitOnL sep b := by
  cases sep with
  | nil => exact absurd rfl hsep
  | cons c s' =>
    show splitAux (c :: s') 0 (c :: (s' ++ b)) = [] :: splitAux (c :: s') 0 b
    rw [splitAux, if_pos ⟨hsep, List.isPrefixOf_iff_prefix.mpr ⟨b, rfl⟩⟩]
    have hlen : (c :: s').length - 1 = s'.length := by simp
    rw [hlen, splitAux_skip]

/-- Splitting `a ++ sep ++ b` when the first separator occurrence is exactly
at the end of `a`: no occurrence inside `a`, and no nonempty proper left part
of the separator is a suffix of `a`. -/
theorem splitOnL_append_sep {sep : List Char} (hsep : sep ≠ []) :
    ∀ {a : List Char}, ¬ sep <:+: a →
    (∀ s1 s2, sep = s1 ++ s2 → s1 ≠ [] → s2 ≠ [] → ¬ s1 <:+ a) →
    ∀ b, splitOnL sep (a ++ sep ++ b) = a :: splitOnL sep b := by
  intro a
  induction a with
  | nil =>
    intro _ _ b
    simpa using splitOnL_sep_append hsep b
  | cons c a' ih =>
    intro hinf hstr b
    have hnp : ¬ (sep ≠ [] ∧ sep.isPrefixOf ((c :: a') ++ sep ++ b) = true) := by
      rintro ⟨-, hp⟩
      have hpre : sep <+: (c :: a') ++ (sep ++ b) := by
        simpa [List.append_assoc] using List.isPrefixOf_iff_prefix.mp hp
      rcases prefix_split hpre with h1 | ⟨h2, h3⟩
      · exact hinf (prefix_toInfix h1)
      · have htk : sep = (c :: a') ++ sep.drop (c :: a').length := by
          conv_lhs => rw [← List.take_append_drop (c :: a').length sep]
          rw [← List.prefix_iff_eq_take.mp h2]
        by_cases hs2 : sep.drop (c :: a').length = []
        · have : sep = c :: a' := by rw [htk, hs2, List.append_nil]
          exact hinf (this ▸ List.infix_rfl)
        · exact hstr (c :: a') (sep.drop (c :: a').length) htk (by simp) hs2
            (List.suffix_refl _)
    show splitAux sep 0 (c :: (a' ++ sep ++ b)) = (c :: a') :: splitOnL sep b
    rw [splitAux, if_neg (by simpa [List.append_assoc] using hnp)]
    have ha' : ¬ sep <:+: a' := fun hr => hinf (List.infix_cons hr)
    have hstr' : ∀ s1 s2, sep = s1 ++ s2 → s1 ≠ [] → s2 ≠ [] → ¬ s1 <:+ a' := by
      intro s1 s2 heq hn1 hn2 hsf
      obtain ⟨r, hr⟩ := hsf
      exact hstr s1 s2 heq hn1 hn2 ⟨c :: r, by simp [hr]⟩
    have : splitAux sep 0 (a' ++ sep ++ b) = a' :: splitOnL sep b := ih ha' hstr' b
    rw [show a' ++ sep ++ b = a' ++ (sep ++ b) from by simp [List.append_assoc]] at this ⊢
    rw [this]

/-- `containsSub` agrees with the infix relation. -/
theorem containsSub_iff {sep : List Char} : ∀ {s : List Char},
    containsSub sep s = true ↔ sep <:+: s := by
  intro s
  induction s with
  | nil =>
    constructor
    · intro h
      have : sep <+: ([] : List Char) :=
        List.isPrefixOf_iff_prefix.mp (by simpa [containsSub] using h)
      exact prefix_toInfix this
    · intro h
      have hlen : sep.length = 0 := Nat.le_zero.mp (by simpa using h.length_le)
      have hnil : sep = [] := List.eq_nil_of_length_eq_zero hlen
      simp [containsSub, hnil, List.isPrefixOf_iff_prefix]
  | cons c rest ih =>
    show (sep.isPrefixOf (c :: rest) || containsSub sep rest) = true ↔ _
    rw [Bool.or_eq_true, List.isPrefixOf_iff_prefix, ih, List.infix_cons_iff]

/-- A `dropWhile` fixpoint stays a fixpoint after appending. -/
theorem dropWhile_append_of_fix {p : Char → Bool} {l₁ : List Char} (l₂ : List Char)
    (h : l₁.dropWhile p = l₁) (hne : l₁ ≠ []) :
    (l₁ ++ l₂).dropWhile p = l₁ ++ l₂ := by
  cases l₁ with
  | nil => exact absurd rfl hne
  | cons c t =>
    have hpc : p c = false := by
      by_contra hpc'
      have hpc'' : p c = true := by simpa using hpc'
      rw [List.dropWhile_cons, if_pos hpc''] at h
      have hle : (t.dropWhile p).length ≤ t.length :=
        (List.dropWhile_suffix p).sublist.length_le
      have := congrArg List.length h
      simp at this
      omega
    rw [List.cons_append, List.dropWhile_cons, if_neg (by simp [hpc])]

/-- `strip` is the identity on a string whose two ends are not whitespace. -/
theorem trimL_of_fix {l : List Char} (h1 : l.dropWhile pyWs = l)
    (h2 : l.reverse.dropWhile pyWs = l.reverse) : trimL l = l := by
  unfold trimL
  rw [h1, h2, List.reverse_reverse]

/-- `strip` absorbs a leading newline. -/
theorem trimL_newline_left (l : List Char) : trimL ('\n' :: l) = trimL l := by
  unfold trimL
  rw [List.dropWhile_cons, if_pos (by decide)]

/-- `strip` absorbs a trailing newline. -/
theorem trimL_newline_right (l : List Char) : trimL (l ++ ['\n']) = trimL l := by
  unfold trimL
  rw [List.dropWhile_append]
  by_cases h : (l.dropWhile pyWs).isEmpty = true
  · rw [if_pos h]
    have h' : l.dropWhile pyWs = [] := by simpa [List.isEmpty_iff] using h
    rw [h']
    decide
  · rw [if_neg h]
    rw [List.reverse_append]
    rw [show (['\n'] : List Char).reverse = ['\n'] from rfl]
    rw [List.singleton_append, List.dropWhile_cons, if_pos (by decide)]

/-- The result of `strip` is an infix of the input. -/
theorem trimL_isInf (l : List Char) : trimL l <:+: l := by
  have h1 : l.dropWhile pyWs <:+ l := List.dropWhile_suffix pyWs
  have h2 : (l.dropWhile pyWs).reverse.dropWhile pyWs <:+ (l.dropWhile pyWs).reverse :=
    List.dropWhile_suffix pyWs
  obtain ⟨r, hr⟩ := h2
  have hpre : trimL l <+: l.dropWhile pyWs := by
    refine ⟨r.reverse, ?_⟩
    have := congrArg List.reverse hr
    simpa [trimL, List.reverse_append] using this
  exact List.infix_iff_prefix_suffix.mpr ⟨l.dropWhile pyWs, hpre, h1⟩

/-- A model reply wrapping `J` in a json-annotated Markdown fence. -/
def fjWrap (J : List Char) : List Char := "```json\n".toList ++ J ++ "\n```".toList

/-- A model reply wrapping `J` in a bare Markdown fence. -/
def bWrap (J : List Char) : List Char := "```\n".toList ++ J ++ "\n```".toList

/-- No occurrence of the backtick run straddles or sits inside the padded
body `'\n' :: (J ++ ['\n'])` when `J` itself has none. -/
theorem bt3_not_in_padded {J : List Char} (h : ¬ bt3L <:+: J) :
    ¬ bt3L <:+: '\n' :: (J ++ ['\n']) := by
  intro hin
  rcases infix_append_split (a := ['\n']) (b := J ++ ['\n']) hin with h1 | h1 | hs
  · have := h1.length_le
    simp [bt3L] at this
  · rcases infix_append_split (a := J) (b := ['\n']) h1 with h2 | h2 | ⟨s1, s2, hn1, hn2, heq, _, hpf⟩
    · exact h h2
    · have := h2.length_le
      simp [bt3L] at this
    · have : '\n' ∈ s2 := head_mem_of_pre hn2 hpf
      have : '\n' ∈ bt3L := heq ▸ List.mem_append_right _ this
      simp [bt3L] at this
  · obtain ⟨s1, s2, hn1, hn2, heq, hsf, _⟩ := hs
    have : '\n' ∈ s1 := last_mem_of_suf (x := []) hn1 (by simpa using hsf)
    have : '\n' ∈ bt3L := heq ▸ List.mem_append_left _ this
    simp [bt3L] at this

/-- The fence opener `"```json"` does not occur in the padded, closed body
when `J` contains no backtick run. -/
theorem fjson_not_in_closed {J : List Char} (h : ¬ bt3L <:+: J) :
    ¬ fjsonL <:+: '\n' :: (J ++ ('\n' :: bt3L)) := by
  intro hin
  rcases infix_append_split (a := ['\n']) (b := J ++ ('\n' :: bt3L)) hin with h1 | h1 | hs
  · have := h1.length_le
    simp [fjsonL] at this
  · rcases infix_append_split (a := J) (b := '\n' :: bt3L) h1 with h2 | h2 | hs2
    · have hp : bt3L <+: fjsonL := by decide
      exact h ((prefix_toInfix hp).trans h2)
    · rcases infix_append_split (a := ['\n']) (b := bt3L) h2 with h3 | h3 | hs3
      · have := h3.length_le
        simp [fjsonL] at this
      · have := h3.length_le
        simp [fjsonL, bt3L] at this
      · obtain ⟨s1, s2, hn1, hn2, heq, hsf, _⟩ := hs3
        have : '\n' ∈ s1 := last_mem_of_suf (x := []) hn1 (by simpa using hsf)
        have : '\n' ∈ fjsonL := heq ▸ List.mem_append_left _ this
        simp [fjsonL] at this
    · obtain ⟨s1, s2, hn1, hn2, heq, _, hpf⟩ := hs2
      have : '\n' ∈ s2 := head_mem_of_pre hn2 hpf
      have : '\n' ∈ fjsonL := heq ▸ List.mem_append_right _ this
      simp [fjsonL] at this
  · obtain ⟨s1, s2, hn1, hn2, heq, hsf, _⟩ := hs
    have : '\n' ∈ s1 := last_mem_of_suf (x := []) hn1 (by simpa using hsf)
    have : '\n' ∈ fjsonL := heq ▸ List.mem_append_left _ this
    simp [fjsonL] at this

/-- The fence opener `"```json"` does not occur in a bare-fenced reply when
`J` contains no backtick run. -/
theorem fjson_not_in_bare {J : List Char} (h : ¬ bt3L <:+: J) :
    ¬ fjsonL <:+: bt3L ++ ('\n' :: (J ++ ('\n' :: bt3L))) := by
  intro hin
  rcases infix_append_split hin with h1 | h1 | hs
  · have := h1.length_le
    simp [fjsonL, bt3L] at this
  · exact fjson_not_in_closed h h1
  · obtain ⟨s1, s2, hn1, hn2, heq, _, hpf⟩ := hs
    have : '\n' ∈ s2 := head_mem_of_pre hn2 hpf
    have : '\n' ∈ fjsonL := heq ▸ List.mem_append_right _ this
    simp [fjsonL] at this

/-- No nonempty left fragment of the backtick run is a suffix of the padded
body (its last character is a newline). -/
theorem bt3_no_straddle (J : List Char) :
    ∀ s1 s2, bt3L = s1 ++ s2 → s1 ≠ [] → s2 ≠ [] → ¬ s1 <:+ '\n' :: (J ++ ['\n']) := by
  intro s1 s2 heq hn1 _ hsf
  have hsf' : s1 <:+ ('\n' :: J) ++ ['\n'] := by simpa using hsf
  have : '\n' ∈ s1 := last_mem_of_suf hn1 hsf'
  have : '\n' ∈ bt3L := heq ▸ List.mem_append_left _ this
  simp [bt3L] at this

/-- Shape of a json-fenced reply. -/
theorem fjWrap_shape (J : List Char) :
    fjWrap J = fjsonL ++ ('\n' :: (J ++ ('\n' :: bt3L))) := by
  have h1 : ("```json\n".toList : List Char) = fjsonL ++ ['\n'] := by decide
  have h2 : ("\n```".toList : List Char) = '\n' :: bt3L := by decide
  simp [fjWrap, h1, h2, fjsonL, bt3L, List.append_assoc]

/-- Shape of a bare-fenced reply. -/
theorem bWrap_shape (J : List Char) :
    bWrap J = bt3L ++ ('\n' :: (J ++ ('\n' :: bt3L))) := by
  have h1 : ("```\n".toList : List Char) = bt3L ++ ['\n'] := by decide
  have h2 : ("\n```".toList : List Char) = '\n' :: bt3L := by decide
  simp [bWrap, h1, h2, bt3L, List.append_assoc]

/-- The fenced wrappers are untouched by the initial `strip`. -/
theorem trimL_fjWrap (J : List Char) : trimL (fjWrap J) = fjWrap J := by
  apply trimL_of_fix
  · rw [show fjWrap J = "```json\n".toList ++ (J ++ "\n```".toList) from by
      simp [fjWrap, List.append_assoc]]
    exact dropWhile_append_of_fix _ (by decide) (by decide)
  · rw [show (fjWrap J).reverse
        = "\n```".toList.reverse ++ (J.reverse ++ "```json\n".toList.reverse) from by
      simp [fjWrap, List.reverse_append]]
    exact dropWhile_append_of_fix _ (by decide) (by decide)

/-- The bare wrapper is untouched by the initial `strip`. -/
theorem trimL_bWrap (J : List Char) : trimL (bWrap J) = bWrap J := by
  apply trimL_of_fix
  · rw [show bWrap J = "```\n".toList ++ (J ++ "\n```".toList) from by
      simp [bWrap, List.append_assoc]]
    exact dropWhile_append_of_fix _ (by decide) (by decide)
  · rw [show (bWrap J).reverse
        = "\n```".toList.reverse ++ (J.reverse ++ "```\n".toList.reverse) from by
      simp [bWrap, List.reverse_append]]
    exact dropWhile_append_of_fix _ (by decide) (by decide)

/-- Fenced wrappers are nonempty. -/
theorem fjWrap_ne_nil (J : List Char) : fjWrap J ≠ [] := by
  intro hc
  have := congrArg List.length hc
  simp [fjWrap] at this

/-- Bare wrappers are nonempty. -/
theorem bWrap_ne_nil (J : List Char) : bWrap J ≠ [] := by
  intro hc
  have := congrArg List.length hc
  simp [bWrap] at this

/-- Fence cleanup of a json-fenced reply recovers the stripped body. -/
theorem cleanExtractedText_fjWrap {J : List Char} (h : ¬ bt3L <:+: J) :
    cleanExtractedText (fjWrap J) = trimL J := by
  have hcont : containsSub fjsonL (fjWrap J) = true := by
    rw [fjWrap_shape]
    exact containsSub_iff.mpr (prefix_toInfix (List.prefix_append _ _))
  rw [cleanExtractedText, if_pos hcont, fjWrap_shape,
    splitOnL_sep_append (by decide : fjsonL ≠ []),
    splitOnL_of_not_occurring (fjson_not_in_closed h)]
  rw [show (([] : List Char) :: ['\n' :: (J ++ ('\n' :: bt3L))]).getD 1 []
      = '\n' :: (J ++ ('\n' :: bt3L)) from rfl]
  rw [show '\n' :: (J ++ ('\n' :: bt3L)) = ('\n' :: (J ++ ['\n'])) ++ bt3L ++ [] from by
    simp [List.append_assoc]]
  rw [splitOnL_append_sep (by decide : bt3L ≠ []) (bt3_not_in_padded h) (bt3_no_straddle J) []]
  rw [show ((('\n' :: (J ++ ['\n'])) :: splitOnL bt3L []).getD 0 [])
      = '\n' :: (J ++ ['\n']) from rfl]
  rw [trimL_newline_left, trimL_newline_right]

/-- Fence cleanup of a bare-fenced reply recovers the stripped body. -/
theorem cleanExtractedText_bWrap {J : List Char} (h : ¬ bt3L <:+: J) :
    cleanExtractedText (bWrap J) = trimL J := by
  have hnof : containsSub fjsonL (bWrap J) ≠ true := by
    rw [bWrap_shape]
    intro hc
    exact fjson_not_in_bare h (containsSub_iff.mp hc)
  have hcont : containsSub bt3L (bWrap J) = true := by
    rw [bWrap_shape]
    exact containsSub_iff.mpr (prefix_toInfix (List.prefix_append _ _))
  rw [cleanExtractedText, if_neg hnof, if_pos hcont, bWrap_shape,
    splitOnL_sep_append (by decide : bt3L ≠ [])]
  rw [show '\n' :: (J ++ ('\n' :: bt3L)) = ('\n' :: (J ++ ['\n'])) ++ bt3L ++ [] from by
    simp [List.append_assoc]]
  rw [splitOnL_append_sep (by decide : bt3L ≠ []) (bt3_not_in_padded h) (bt3_no_straddle J) []]
  rw [show (([] : List Char) :: ('\n' :: (J ++ ['\n'])) :: splitOnL bt3L []).getD 1 []
      = '\n' :: (J ++ ['\n']) from rfl]
  rw [trimL_newline_left, trimL_newline_right]

/-- Fence cleanup is the identity on a text with no backtick run. -/
theorem cleanExtractedText_id {t : List Char} (h : ¬ bt3L <:+: t) :
    cleanExtractedText t = t := by
  have h1 : containsSub fjsonL t ≠ true := by
    intro hc
    exact h ((prefix_toInfix (by decide : bt3L <+: fjsonL)).trans (containsSub_iff.mp hc))
  have h2 : containsSub bt3L t ≠ true := by
    intro hc
    exact h (containsSub_iff.mp hc)
  rw [cleanExtractedText, if_neg h1, if_neg h2]

/-- The recovery stage depends on the response text only through the fence
cleanup. -/
theorem recoverStage_congr {t1 t2 : List Char}
    (h : cleanExtractedText t1 = cleanExtractedText t2) :
    recoverStage t1 = recoverStage t2 := by
  simp only [recoverStage, h]

/-- A json-fenced reply is processed exactly like the bare body. -/
theorem processResponseText_fjWrap {J : List Char} (h : ¬ bt3L <:+: J)
    (hne : trimL J ≠ []) :
    processResponseText (fjWrap J) = processResponseText J := by
  have hid : cleanExtractedText (trimL J) = trimL J :=
    cleanExtractedText_id (fun hc => h (hc.trans (trimL_isInf J)))
  have hcongr : recoverStage (fjWrap J) = recoverStage (trimL J) :=
    recoverStage_congr ((cleanExtractedText_fjWrap h).trans hid.symm)
  simp only [processResponseText, trimL_fjWrap]
  rw [if_neg (fjWrap_ne_nil J), if_neg hne, hcongr]

/-- A bare-fenced reply is processed exactly like the bare body. -/
theorem processResponseText_bWrap {J : List Char} (h : ¬ bt3L <:+: J)
    (hne : trimL J ≠ []) :
    processResponseText (bWrap J) = processResponseText J := by
  have hid : cleanExtractedText (trimL J) = trimL J :=
    cleanExtractedText_id (fun hc => h (hc.trans (trimL_isInf J)))
  have hcongr : recoverStage (bWrap J) = recoverStage (trimL J) :=
    recoverStage_congr ((cleanExtractedText_bWrap h).trans hid.symm)
  simp only [processResponseText, trimL_bWrap]
  rw [if_neg (bWrap_ne_nil J), if_neg hne, hcongr]

/-- On a strict parse failure the pipeline returns the fallback record. -/
theorem processResponseText_parse_fail {t : List Char} (hne : trimL t ≠ [])
    (hp : jsonParse (cleanExtractedText (trimL t)) = none) :
    processResponseText t = .ok (cleanExtractedText (trimL t), fallbackData) := by
  simp only [processResponseText, recoverStage]
  rw [if_neg hne, hp]

/-- Whenever normalization of a decoded object succeeds, the produced record
carries the object's `currency` (default `"INR"`) and the constant confidence
`95.0`. -/
theorem processParsedData_fields_shape {fields : List (List Char × JVal)} {r : JVal}
    (h : processParsedData (JVal.jobj fields) = .ok r) :
    objField r ("currency".toList)
      = some (dictGetD fields ("currency".toList) (JVal.jstr ("INR".toList)))
    ∧ objField r ("confidence_score".toList) = some (JVal.jnum 95) := by
  unfold processParsedData at h
  simp only [asDict] at h
  repeat' split at h
  all_goals first
    | exact Except.noConfusion h
    | (rw [Except.ok.injEq] at h; subst h; exact ⟨rfl, rfl⟩)

/-- Core arithmetic of the downscale branch, for the orientation `h ≤ w` with
`w` over the bound: the wide side lands exactly on 1600, the short side lands
below it, and the aspect ratio is preserved to within one pixel. -/
theorem resize_core {w h : ℕ} (hw : 0 < w) (hh : 0 < h) (hhw : h ≤ w) :
    (⌊(w : ℚ) * min ((1600 : ℚ) / w) ((1600 : ℚ) / h)⌋).toNat = 1600
    ∧ (⌊(h : ℚ) * min ((1600 : ℚ) / w) ((1600 : ℚ) / h)⌋).toNat ≤ 1600
    ∧ |((((⌊(h : ℚ) * min ((1600 : ℚ) / w) ((1600 : ℚ) / h)⌋).toNat : ℕ)) : ℚ) * w
        - (h : ℚ) * (((⌊(w : ℚ) * min ((1600 : ℚ) / w) ((1600 : ℚ) / h)⌋).toNat : ℕ) : ℚ)|
      < ((w : ℕ) : ℚ) := by
  have hw0 : (0 : ℚ) < w := by exact_mod_cast hw
  have hh0 : (0 : ℚ) < h := by exact_mod_cast hh
  have hhwq : (h : ℚ) ≤ w := by exact_mod_cast hhw
  have hmin : min ((1600 : ℚ) / w) ((1600 : ℚ) / h) = (1600 : ℚ) / w := by
    apply min_eq_left
    rw [div_le_div_iff₀ hw0 hh0]
    nlinarith
  have hW : (w : ℚ) * ((1600 : ℚ) / w) = 1600 := by field_simp
  have hWfloor : ⌊(w : ℚ) * ((1600 : ℚ) / w)⌋ = 1600 := by rw [hW]; norm_num
  set x : ℚ := (h : ℚ) * ((1600 : ℚ) / w) with hxdef
  have hxnn : 0 ≤ x := by positivity
  have hxle : x ≤ 1600 := by
    rw [hxdef, mul_comm, div_mul_eq_mul_div, div_le_iff₀ hw0]
    nlinarith
  have hfl_nn : 0 ≤ ⌊x⌋ := Int.floor_nonneg.mpr hxnn
  have hfl_le : ⌊x⌋ ≤ 1600 := by
    calc ⌊x⌋ ≤ ⌊(1600 : ℚ)⌋ := Int.floor_le_floor hxle
    _ = 1600 := by norm_num
  refine ⟨?_, ?_, ?_⟩
  · rw [hmin, hWfloor]
    rfl
  · rw [hmin, ← hxdef]
    omega
  · rw [hmin, hWfloor, ← hxdef]
    have hcastH : (((⌊x⌋).toNat : ℕ) : ℚ) = ((⌊x⌋ : ℤ) : ℚ) := by
      exact_mod_cast congrArg (fun z : ℤ => (z : ℚ)) (Int.toNat_of_nonneg hfl_nn)
    have hcastW : (((1600 : ℤ).toNat : ℕ) : ℚ) = 1600 := by
      simp [Int.toNat_ofNat]
    rw [hcastH, hcastW]
    have hxw : (h : ℚ) * 1600 = x * w := by
      rw [hxdef]
      field_simp
    rw [hxw]
    have hfloor_le : ((⌊x⌋ : ℤ) : ℚ) ≤ x := Int.floor_le x
    have hfract : x - ((⌊x⌋ : ℤ) : ℚ) < 1 := by
      have := Int.lt_floor_add_one x
      linarith
    have habs : |((⌊x⌋ : ℤ) : ℚ) * w - x * w| = (x - ((⌊x⌋ : ℤ) : ℚ)) * w := by
      rw [← sub_mul, abs_mul, abs_of_nonneg (le_of_lt hw0), abs_sub_comm,
        abs_of_nonneg (by linarith)]
    rw [habs]
    calc (x - ((⌊x⌋ : ℤ) : ℚ)) * w < 1 * w := by
          apply mul_lt_mul_of_pos_right hfract hw0
    _ = w := one_mul _

/-- First value of a successful `Except`, used to state closed witnesses. -/
def extractOkJ (e : Except PyExc JVal) : JVal :=
  match e with
  | .ok v => v
  | .error _ => JVal.jnull

/-- The model reply of the C1 scenario: declared total 100 against a single
line item of amount 80. -/
def scenarioReply : List Char :=
  "\x7b\"vendor\":\"Acme\",\"invoice_number\":\"I-1\",\"date\":\"2025-01-01\",\"total\":100,\"currency\":\"USD\",\"items\":[\x7b\"description\":\"Widget\",\"quantity\":2,\"unit_price\":40,\"amount\":80\x7d]\x7d".toList

/-- C1: the claim says the pipeline record replaces a divergent declared total
by `round(sum of item amounts, 2)`, so the scenario reply (total 100, one
item of amount 80) should yield 80.0.  The code does not: `process_invoice`
copies `float(data.get("total", 0))` with no reconciliation and the record
keeps total 100; and `InvoiceData.validate_total` — the place the spec's
invariant points at — never fires, because pydantic validates `total` before
`items`, so `'items' in values` is false (demonstrated by
`validateInvoiceData` keeping 100).  The validator body itself, handed the
items the way its docstring assumes, would indeed produce 80, confirming the
claim describes the intent that the code misses. -/
theorem c1_total_not_reconciled :
    resNumField (processResponseText scenarioReply) ("total".toList) = some 100
    ∧ resOkB (processResponseText scenarioReply) = true
    ∧ (validateInvoiceData ("Acme".toList) ("I-1".toList) ("2025-01-01".toList) 100
        ("USD".toList) [("Widget".toList, 2, 40, 80)]).map (·.total) = .ok 100
    ∧ validate_total 100 (some [⟨"Widget".toList, 2, 40, 80⟩]) = 80 := by
  refine ⟨by with_unfolding_all rfl, by with_unfolding_all rfl,
    by with_unfolding_all rfl, by with_unfolding_all rfl⟩

/-- C2 counterexample: at quantity 1, unit price 1.005 and declared amount
0.9949 the claim's premise holds — the amount differs from the raw product by
0.0101 > 0.01 — yet `validate_amount` keeps 0.9949 instead of the claimed
round(q*p, 2) = 1.00, because the code compares against the rounded product
(distance 0.0051 ≤ 0.01). -/
theorem c2_counterexample :
    |(9949 / 10000 : ℚ) - 1 * (201 / 200)| > 1 / 100
    ∧ (validateLineItem ("widget".toList) 1 (201 / 200) (9949 / 10000)).map (·.amount)
      = .ok (9949 / 10000)
    ∧ round2 ((1 : ℚ) * (201 / 200)) = 1
    ∧ (9949 / 10000 : ℚ) ≠ 1 := by
  refine ⟨?_, by with_unfolding_all rfl, by with_unfolding_all rfl, by norm_num⟩
  have habs : |(9949 / 10000 : ℚ) - 1 * (201 / 200)| = 101 / 10000 := by
    rw [abs_of_nonpos (by norm_num)]
    norm_num
  rw [habs]
  norm_num

/-- C2 (amended): `LineItem.validate_amount` compares the declared amount `a`
against the rounded product `round(q*p, 2)` — not against `q*p` itself — with
tolerance 0.01, replacing `a` by `round(q*p, 2)` when exceeded and keeping it
otherwise; in both cases the item is accepted, never rejected. -/
theorem c2_amount_reconciliation (d : List Char) (q p a : ℚ)
    (hq : 0 ≤ q) (hp : 0 ≤ p) (ha : 0 ≤ a) :
    validateLineItem d q p a
      = .ok ⟨cleanDescription d, q, p,
          if |a - round2 (q * p)| > 1 / 100 then round2 (q * p) else a⟩ := by
  unfold validateLineItem
  rw [if_neg (not_lt.mpr hq), if_neg (not_lt.mpr hp), if_neg (not_lt.mpr ha)]

/-- C2 witness: a declared amount of 100 against 2 × 40 is replaced by 80. -/
theorem c2_witness :
    (validateLineItem ("Widget".toList) 2 40 100).map (·.amount) = .ok 80 := by
  rw [c2_amount_reconciliation ("Widget".toList) 2 40 100 (by norm_num) (by norm_num)
    (by norm_num)]
  with_unfolding_all rfl

/-- A reply whose fence-stripped text fails strict parsing but contains a
parseable brace span. -/
def proseReply : List Char := "Here is the JSON: \x7b\"total\": 5\x7d".toList

/-- C3 counterexample: on a reply whose strict parse fails, the claimed
brace-span recovery would find and parse `{"total": 5}` (the spec-modelled
`specBraceSpan` does), but the pipeline instead returns the fallback record
with total 0 and confidence 0, and no `MalformedExtractionError` (or any
error) arises. -/
theorem c3_counterexample :
    jsonParse (cleanExtractedText (trimL proseReply)) = none
    ∧ specBraceSpan (trimL proseReply) = some ("\x7b\"total\": 5\x7d".toList)
    ∧ jsonParse ("\x7b\"total\": 5\x7d".toList)
      = some (JVal.jobj [("total".toList, JVal.jnum 5)])
    ∧ processResponseText proseReply = .ok (trimL proseReply, fallbackData)
    ∧ resNumField (processResponseText proseReply) ("total".toList) = some 0
    ∧ resNumField (processResponseText proseReply) ("confidence_score".toList) = some 0 := by
  refine ⟨by with_unfolding_all rfl, by with_unfolding_all rfl, by with_unfolding_all rfl,
    by with_unfolding_all rfl, by with_unfolding_all rfl, by with_unfolding_all rfl⟩

/-- C3 (amended): there is no brace-matching recovery step and no
`MalformedExtractionError`: whenever strict parsing of the fence-stripped
text fails, the pipeline immediately returns the fallback zeroed record —
even when a brace span (the spec's greedy first-to-last match) exists in the
text. -/
theorem c3_no_brace_recovery (t s : List Char) (hne : trimL t ≠ [])
    (hp : jsonParse (cleanExtractedText (trimL t)) = none)
    (_hspan : specBraceSpan (cleanExtractedText (trimL t)) = some s) :
    processResponseText t = .ok (cleanExtractedText (trimL t), fallbackData) :=
  processResponseText_parse_fail hne hp

/-- C3 witness: the prose reply above. -/
theorem c3_witness :
    processResponseText proseReply = .ok (trimL proseReply, fallbackData) := by
  have h := c3_no_brace_recovery proseReply ("\x7b\"total\": 5\x7d".toList)
    (by decide) (by with_unfolding_all rfl) (by with_unfolding_all rfl)
  exact h

/-- C4: a model response from which no JSON can be recovered produces the
zero-confidence zeroed record as a normal return, not an exception. -/
theorem c4_unrecoverable_to_fallback (t : List Char) (hne : trimL t ≠ [])
    (hp : jsonParse (cleanExtractedText (trimL t)) = none) :
    processResponseText t = .ok (cleanExtractedText (trimL t), fallbackData)
    ∧ objField fallbackData ("confidence_score".toList) = some (JVal.jnum 0)
    ∧ objField fallbackData ("total".toList) = some (JVal.jnum 0)
    ∧ objField fallbackData ("items".toList) = some (JVal.jarr []) := by
  exact ⟨processResponseText_parse_fail hne hp, rfl, rfl, rfl⟩

/-- C4 witness: non-JSON prose with no embedded braces. -/
theorem c4_witness :
    processResponseText ("I cannot read this invoice.".toList)
      = .ok ("I cannot read this invoice.".toList, fallbackData) := by
  have h := c4_unrecoverable_to_fallback ("I cannot read this invoice.".toList)
    (by decide) (by with_unfolding_all rfl)
  exact h.1

/-- A valid JSON object text containing a triple-backtick run inside a string
value. -/
def backtickReply : List Char := "\x7b\"a\":\"``` 5 ```\"\x7d".toList

/-- C5 counterexample: for the JSON object text `{"a":"``` 5 ```"}` the three
responses do not normalize identically: the unfenced reply raises (the split
on the inner backticks isolates `5`, which parses as a number and then breaks
normalization with an `AttributeError`), while both fenced replies return the
fallback record normally. -/
theorem c5_counterexample :
    jsonParse backtickReply = some (JVal.jobj [("a".toList, JVal.jstr ("``` 5 ```".toList))])
    ∧ processResponseText backtickReply
      = .error (PyExc.exc "Failed to process invoice: object has no attribute get")
    ∧ resOkB (processResponseText backtickReply) = false
    ∧ resOkB (processResponseText (fjWrap backtickReply)) = true
    ∧ resOkB (processResponseText (bWrap backtickReply)) = true := by
  refine ⟨by with_unfolding_all rfl, by with_unfolding_all rfl, by with_unfolding_all rfl,
    by with_unfolding_all rfl, by with_unfolding_all rfl⟩

/-- C5 (amended): for every JSON object text — indeed every nonblank text —
that does not itself contain a triple backtick, wrapping it in a ```json
fence or in a bare ``` fence changes nothing: all three responses are
processed to identical results. -/
theorem c5_fence_invariance (J : List Char) (h : ¬ bt3L <:+: J)
    (hne : trimL J ≠ []) :
    processResponseText (fjWrap J) = processResponseText J
    ∧ processResponseText (bWrap J) = processResponseText J :=
  ⟨processResponseText_fjWrap h hne, processResponseText_bWrap h hne⟩

/-- A plain backtick-free reply used to witness the fence invariance. -/
def plainReply : List Char := "\x7b\"total\": 7\x7d".toList

/-- C5 witness: the invariance applied to a concrete reply. -/
theorem c5_witness :
    processResponseText (fjWrap plainReply) = processResponseText plainReply := by
  have h := c5_fence_invariance plainReply (by decide) (by decide)
  exact h.1

/-- C6 counterexample: an input whose first bytes read "CREDIT NOTE" and one
reading "INVOICE" are sent the very same prompt, and the prompt contains no
"credit" hint at all — the spec-modelled heuristic (`specDocTypeHint`) would
distinguish them, the code does not. -/
theorem c6_counterexample :
    specDocTypeHint ("CREDIT NOTE No 7".toList) = "credit_note"
    ∧ specDocTypeHint ("INVOICE 12".toList) = "invoice"
    ∧ promptFor ("CREDIT NOTE No 7".toList) = promptFor ("INVOICE 12".toList)
    ∧ containsSub ("credit".toList) (invoicePrompt.toList) = false := by
  refine ⟨by with_unfolding_all rfl, by with_unfolding_all rfl, rfl,
    by with_unfolding_all rfl⟩

/-- C6 (amended): the prompt sent to the model is a fixed constant that does
not depend on the uploaded bytes in any way; no doc_type hint (no "credit"
substring at all) is embedded in it. -/
theorem c6_prompt_constant :
    (∀ b : List Char, promptFor b = invoicePrompt)
    ∧ containsSub ("credit_note".toList) (invoicePrompt.toList) = false := by
  exact ⟨fun _ => rfl, by with_unfolding_all rfl⟩

/-- C8 counterexample: a PDF rendering zero pages makes the pipeline fail
with the generic wrapper `Exception("Failed to process invoice: ...")` around
a `NoneType` `AttributeError` — the same generic `Exception` kind produced by
an unrelated failure (a corrupt image) — not a distinct
`DocumentRenderError`. -/
theorem c8_counterexample :
    processFront "application/pdf" (.ok (PILImage.mk 1 1 "RGB")) (.ok [])
      = .error (PyExc.exc "Failed to process invoice: NoneType object has no attribute mode")
    ∧ processFront "image/jpeg" (.error (PyExc.valueErr "cannot identify image file")) (.ok [])
      = .error (PyExc.exc "Failed to process invoice: cannot identify image file")
    ∧ excKind (PyExc.exc "Failed to process invoice: NoneType object has no attribute mode")
      = excKind (PyExc.exc "Failed to process invoice: cannot identify image file") := by
  refine ⟨by with_unfolding_all rfl, by with_unfolding_all rfl, rfl⟩

/-- C8 (amended): for every PDF input whose rendering yields zero pages,
`_process_pdf` returns `None`, the subsequent `image.mode` access raises
`AttributeError`, and the pipeline surfaces it as the generic
`Exception("Failed to process invoice: ...")` — no render-specific error kind
exists. -/
theorem c8_zero_pages_generic (imgOpen : Except PyExc PILImage) :
    processFront "application/pdf" imgOpen (.ok [])
      = .error (PyExc.exc "Failed to process invoice: NoneType object has no attribute mode") := by
  with_unfolding_all rfl

/-- C9 counterexample: a reply that does supply `confidence_score: 42` still
comes out with confidence 95.0. -/
theorem c9_counterexample :
    resNumField
      (processResponseText ("\x7b\"vendor\":\"A\",\"confidence_score\":42\x7d".toList))
      ("confidence_score".toList) = some 95
    ∧ (42 : ℚ) ≠ 95 := by
  refine ⟨by with_unfolding_all rfl, by norm_num⟩

/-- C9 (amended): for every successfully normalized reply the record's
confidence_score is the constant 95.0, whether or not the model supplied a
value (line 174 unconditionally overwrites it). -/
theorem c9_confidence_constant (fields : List (List Char × JVal)) (r : JVal)
    (h : processParsedData (JVal.jobj fields) = .ok r) :
    objField r ("confidence_score".toList) = some (JVal.jnum 95) :=
  (processParsedData_fields_shape h).2

/-- C9 witness: the constant confidence at a concrete reply carrying 42. -/
theorem c9_witness :
    objField
      (extractOkJ (processParsedData (JVal.jobj [("confidence_score".toList, JVal.jnum 42)])))
      ("confidence_score".toList) = some (JVal.jnum 95) :=
  c9_confidence_constant [("confidence_score".toList, JVal.jnum 42)] _
    (by with_unfolding_all rfl)

/-- C10: the currency default is path-dependent: a parsed reply with no
currency key is normalized with currency "INR", while the fallback record
returned on parse failure carries currency "USD" and omits the `subtotal` and
`tax_details` keys entirely. -/
theorem c10_currency_paths :
    (∀ (fields : List (List Char × JVal)) (r : JVal),
        dictGet fields ("currency".toList) = none →
        processParsedData (JVal.jobj fields) = .ok r →
        objField r ("currency".toList) = some (JVal.jstr ("INR".toList)))
    ∧ (∀ t : List Char, trimL t ≠ [] →
        jsonParse (cleanExtractedText (trimL t)) = none →
        processResponseText t = .ok (cleanExtractedText (trimL t), fallbackData))
    ∧ objField fallbackData ("currency".toList) = some (JVal.jstr ("USD".toList))
    ∧ objField fallbackData ("subtotal".toList) = none
    ∧ objField fallbackData ("tax_details".toList) = none := by
  refine ⟨?_, ?_, rfl, rfl, rfl⟩
  · intro fields r hnone hok
    have h := (processParsedData_fields_shape hok).1
    have h2 : dictGetD fields ("currency".toList) (JVal.jstr ("INR".toList))
        = JVal.jstr ("INR".toList) := by
      unfold dictGetD
      rw [hnone]
      rfl
    rw [h, h2]
  · intro t hne hp
    exact processResponseText_parse_fail hne hp

/-- C10 witness: a reply lacking a currency key comes out as INR. -/
theorem c10_witness :
    objField (extractOkJ (processParsedData (JVal.jobj [("total".toList, JVal.jnum 10)])))
      ("currency".toList) = some (JVal.jstr ("INR".toList)) :=
  c10_currency_paths.1 [("total".toList, JVal.jnum 10)] _
    (by with_unfolding_all rfl) (by with_unfolding_all rfl)

/-- C7: the normalizer always outputs RGB; images with both dimensions at or
under 1600 keep their dimensions (no upsampling); an image with either
dimension over 1600 is downscaled so that its larger output dimension is
exactly 1600 and the aspect ratio is preserved to within one pixel. -/
theorem c7_normalizer (img : PILImage) (hw : 0 < img.width) (hh : 0 < img.height) :
    (normalizeLoadedImage img).mode = "RGB"
    ∧ (img.width ≤ 1600 → img.height ≤ 1600 →
        (normalizeLoadedImage img).width = img.width
        ∧ (normalizeLoadedImage img).height = img.height)
    ∧ (1600 < img.width ∨ 1600 < img.height →
        max (normalizeLoadedImage img).width (normalizeLoadedImage img).height = 1600
        ∧ |((normalizeLoadedImage img).height : ℚ) * (img.width : ℚ)
            - (img.height : ℚ) * ((normalizeLoadedImage img).width : ℚ)|
          < ((max img.width img.height : ℕ) : ℚ)) := by
  obtain ⟨w, h, m⟩ := img
  simp only at hw hh
  have hcanon : (if (PILImage.mk w h m).mode ≠ "RGB"
      then { PILImage.mk w h m with mode := "RGB" } else PILImage.mk w h m)
      = PILImage.mk w h "RGB" := by
    by_cases hm : m = "RGB"
    · simp [hm]
    · simp [hm]
  have hnorm : normalizeLoadedImage (PILImage.mk w h m)
      = (if 1600 < w ∨ 1600 < h then
          PILImage.mk
            ((ratFloor ((w : ℚ) * min ((1600 : ℚ) / (w : ℚ)) ((1600 : ℚ) / (h : ℚ)))).toNat)
            ((ratFloor ((h : ℚ) * min ((1600 : ℚ) / (w : ℚ)) ((1600 : ℚ) / (h : ℚ)))).toNat)
            "RGB"
        else PILImage.mk w h "RGB") := by
    simp only [normalizeLoadedImage]
    rw [hcanon]
  refine ⟨?_, ?_, ?_⟩
  · rw [hnorm]
    split <;> rfl
  · intro h1 h2
    simp only at h1 h2
    rw [hnorm, if_neg (by omega)]
    exact ⟨rfl, rfl⟩
  · intro hr
    rw [hnorm, if_pos hr]
    simp only [ratFloor_eq]
    rcases le_or_lt h w with hhw | hwh
    · obtain ⟨hW, hH, hA⟩ := resize_core hw hh hhw
      show max (⌊(w : ℚ) * _⌋).toNat (⌊(h : ℚ) * _⌋).toNat = 1600 ∧ _
      refine ⟨?_, ?_⟩
      · rw [hW]
        exact max_eq_left hH
      · show |((((⌊(h : ℚ) * _⌋).toNat : ℕ)) : ℚ) * w
            - (h : ℚ) * (((⌊(w : ℚ) * _⌋).toNat : ℕ) : ℚ)| < ((max w h : ℕ) : ℚ)
        refine lt_of_lt_of_le hA ?_
        have : (w : ℕ) ≤ max w h := le_max_left w h
        exact_mod_cast this
    · obtain ⟨hW, hH, hA⟩ := resize_core hh hw (le_of_lt hwh)
      rw [min_comm ((1600 : ℚ) / (w : ℚ)) ((1600 : ℚ) / (h : ℚ))]
      refine ⟨?_, ?_⟩
      · rw [hW]
        exact max_eq_right hH
      · have heq : |(((⌊(h : ℚ) * min ((1600 : ℚ) / (h : ℚ)) ((1600 : ℚ) / (w : ℚ))⌋).toNat : ℕ) : ℚ)
              * w - (h : ℚ) * (((⌊(w : ℚ) * min ((1600 : ℚ) / (h : ℚ)) ((1600 : ℚ) / (w : ℚ))⌋).toNat : ℕ) : ℚ)|
            = |(((⌊(w : ℚ) * min ((1600 : ℚ) / (h : ℚ)) ((1600 : ℚ) / (w : ℚ))⌋).toNat : ℕ) : ℚ)
              * h - (w : ℚ) * (((⌊(h : ℚ) * min ((1600 : ℚ) / (h : ℚ)) ((1600 : ℚ) / (w : ℚ))⌋).toNat : ℕ) : ℚ)| := by
          rw [abs_sub_comm]
          ring_nf
        rw [heq]
        refine lt_of_lt_of_le hA ?_
        have : (h : ℕ) ≤ max w h := le_max_right w h
        exact_mod_cast this

/-- C7 witness: a 3200 by 2000 RGBA image comes out RGB with its larger side
exactly 1600. -/
theorem c7_witness :
    (normalizeLoadedImage (PILImage.mk 3200 2000 "RGBA")).mode = "RGB"
    ∧ max (normalizeLoadedImage (PILImage.mk 3200 2000 "RGBA")).width
        (normalizeLoadedImage (PILImage.mk 3200 2000 "RGBA")).height = 1600 := by
  have h := c7_normalizer (PILImage.mk 3200 2000 "RGBA") (by decide) (by decide)
  exact ⟨h.1, (h.2.2 (by norm_num)).1⟩
